import Mathlib

/-!
Verification development for the two browser-automation scripts of this
repository: the PiP Quit Verifier (`jles-scratch/verification/test.py`) and
the Highlighting Verifier (`jules-scratch/verification/verify_highlighting.py`).
Each script is a straight-line scenario; we embed it as a trace-producing
function over an abstract environment (service workers present at each poll
attempt, the video's paused state, the service worker's URL) and prove the
spec's claims about the traces and the small pure algorithms (URL splitting,
storage round-trip) the scripts contain.
-/

namespace Nenya

/-- A highlight rule, mirroring the Python dict literal built in
`verify_highlighting.py` (`run`, the `rule = {...}` assignment). -/
structure Rule where
  id : String
  pattern : String
  type : String
  value : String
  textColor : String
  backgroundColor : String
  bold : Bool
  italic : Bool
  underline : Bool
  ignoreCase : Bool
deriving DecidableEq, Repr

/-- The literal rule written by the Highlighting Verifier. -/
def testRule : Rule :=
  { id := "test-rule-1"
    pattern := "*"
    type := "whole-phrase"
    value := "highlighted"
    textColor := "#000000"
    backgroundColor := "#ffff00"
    bold := true
    italic := false
    underline := false
    ignoreCase := true }

/-- The extension's synchronized storage, keyed by string; the only value
shape these scripts ever store under a key is an array of rules. -/
def SyncStorage : Type := List (String × List Rule)

/-- `chrome.storage.sync.set({k: v})`: the key `k` now maps to `v`,
shadowing any earlier binding. -/
def storageSet (m : SyncStorage) (k : String) (v : List Rule) : SyncStorage :=
  (k, v) :: m

/-- `chrome.storage.sync.get(k)`: the most recent binding of `k`, if any. -/
def storageGet (m : SyncStorage) (k : String) : Option (List Rule) :=
  List.lookup k m

/-- Python's `str.split(sep)` on a single-character separator, over the
character list of the string: occurrences of the separator delimit fields,
empty fields included. -/
def pySplit (c : Char) : List Char → List (List Char)
  | [] => [[]]
  | x :: xs =>
    if x = c then [] :: pySplit c xs
    else
      match pySplit c xs with
      | [] => [[x]]
      | h :: t => (x :: h) :: t

/-- `service_worker.url.split('/')[2]` from `verify_highlighting.py`, made
partial: Python raises IndexError when the split has at most two fields. -/
def extractExtensionId (url : List Char) : Option (List Char) :=
  (pySplit '/' url).get? 2

lemma pySplit_ne_nil (c : Char) (l : List Char) : pySplit c l ≠ [] := by
  cases l with
  | nil => simp [pySplit]
  | cons x xs =>
    simp only [pySplit]
    split
    · simp
    · split
      · simp
      · simp

lemma pySplit_no_sep (c : Char) (l : List Char) (h : c ∉ l) :
    pySplit c l = [l] := by
  induction l with
  | nil => rfl
  | cons x xs ih =>
    simp only [List.mem_cons, not_or] at h
    simp only [pySplit]
    rw [if_neg (fun hx => h.1 hx.symm), ih h.2]

lemma pySplit_append_sep (c : Char) (l r : List Char) (h : c ∉ l) :
    pySplit c (l ++ c :: r) = l :: pySplit c r := by
  induction l with
  | nil => simp [pySplit]
  | cons x xs ih =>
    simp only [List.mem_cons, not_or] at h
    simp only [List.cons_append, pySplit]
    rw [if_neg (fun hx => h.1 hx.symm)]
    rw [show xs.append (c :: r) = xs ++ c :: r from rfl, ih h.2]

lemma pySplit_length (c : Char) (l : List Char) :
    (pySplit c l).length = l.count c + 1 := by
  induction l with
  | nil => rfl
  | cons x xs ih =>
    simp only [pySplit]
    by_cases hx : x = c
    · subst hx
      simp [List.count_cons, ih]
    · rw [if_neg hx]
      rcases hsplit : pySplit c xs with _ | ⟨h, t⟩
      · exact absurd hsplit (pySplit_ne_nil c xs)
      · have hlen := ih
        rw [hsplit] at hlen
        simp only [List.length_cons] at hlen ⊢
        simp [List.count_cons, Ne.symm hx]
        omega

/-! ### PiP Quit Verifier (`jles-scratch/verification/test.py`) -/

/-- The path of the video fixture navigated to by `test.py` (its relative
path before `os.path.abspath`). -/
def videoFixturePath : String := "jles-scratch/verification/video.html"

/-- The screenshot artifact path written by `test.py`. -/
def screenshotPath : String := "jles-scratch/verification/screenshot.png"

/-- The diagnostic printed by `test.py` when no service worker appears. -/
def noWorkerMsg : String := "Could not find extension background page or service worker."

/-- The pass message printed by `test.py`. -/
def passMsg : String := "Test passed: Video is paused after quitting PiP."

/-- The fail message printed by `test.py`. -/
def failMsg : String := "Test failed: Video is not paused after quitting PiP."

/-- Observable effects of `main` in `test.py`, in program order. A service
worker is identified by its URL string. -/
inductive PipEvent where
  | navigate (path : String)
  | evalPipTrigger
  | sleepHalf
  | echo (msg : String)
  | closeContext
  | workerEval (worker : String) (key : String) (val : Int)
  | sleepTwo
  | keyPress (combo : String)
  | screenshot (path : String)
  | evalPausedCheck
deriving DecidableEq, Repr

/-- Environment a run of `test.py` observes: the browser context's
service-worker list at each poll attempt, and the value of
`document.getElementById('video').paused` read back at the end. -/
structure PipEnv where
  workersAt : Nat → List String
  isPaused : Bool

/-- The `for i in range(10)` poll of `test.py`: at each attempt, if the
service-worker list is non-empty take its element `[0]` and stop; otherwise
sleep 0.5 s and try again. Returns the worker found (if any) and the number
of sleeps performed. -/
def pollLoop (ws : Nat → List String) : Nat → Nat → Option String × Nat
  | _, 0 => (none, 0)
  | i, fuel + 1 =>
    match (ws i).head? with
    | some w => (some w, 0)
    | none =>
      let r := pollLoop ws (i + 1) fuel
      (r.1, r.2 + 1)

/-- The trace of `main` in `test.py`: navigate to the fixture, trigger PiP
in-page, poll for the background worker; on failure print the diagnostic and
close; on success write `pipTabId: 1` into the extension's local storage via
the worker, wait, press Control+Shift+K, wait, screenshot, read `paused`,
print pass/fail, close. -/
def pipMain (env : PipEnv) : List PipEvent :=
  let r := pollLoop env.workersAt 0 10
  [.navigate videoFixturePath, .evalPipTrigger] ++
    List.replicate r.2 .sleepHalf ++
    match r.1 with
    | none => [.echo noWorkerMsg, .closeContext]
    | some w =>
      [.workerEval w "pipTabId" 1, .sleepTwo, .keyPress "Control+Shift+K",
       .sleepTwo, .screenshot screenshotPath, .evalPausedCheck,
       .echo (if env.isPaused then passMsg else failMsg), .closeContext]

/-- The messages printed by a trace, in order. -/
def printedMessages (t : List PipEvent) : List String :=
  t.filterMap fun e =>
    match e with
    | .echo m => some m
    | _ => none

/-! ### Highlighting Verifier (`jules-scratch/verification/verify_highlighting.py`) -/

/-- The path of the test fixture navigated to by `verify_highlighting.py`. -/
def testHtmlPath : String := "jules-scratch/verification/test.html"

/-- The screenshot artifact path written by `verify_highlighting.py`. -/
def verificationPath : String := "jules-scratch/verification/verification.png"

/-- The paragraph text appended to `#content` by `verify_highlighting.py`. -/
def newParagraphText : String :=
  "This is some new text that should be highlighted if it matches a rule."

/-- Observable effects of `run` in `verify_highlighting.py`, in program
order. -/
inductive HlEvent where
  | navigate (url : String)
  | waitTimeout (ms : Nat)
  | evalSendMessage
  | waitForServiceWorker
  | openOptionsPage (url : String)
  | storageSyncSet (key : String) (rules : List Rule)
  | closeOptionsPage
  | domAppendParagraph (text : String)
  | screenshot (path : String)
  | closeContext
deriving DecidableEq, Repr

/-- The trace of `run` in `verify_highlighting.py`, as a function of the
extension id parsed from the service worker's URL: visit example.com, wait
1000 ms, send the wake-up message, wait for the service worker, open the
options page, write the rule array into synchronized storage, close the
options page, navigate to the fixture, append the paragraph, wait 500 ms,
screenshot, close. -/
def hlRun (extId : String) : List HlEvent :=
  [.navigate "https://example.com",
   .waitTimeout 1000,
   .evalSendMessage,
   .waitForServiceWorker,
   .openOptionsPage ("chrome-extension://" ++ extId ++ "/src/options/index.html"),
   .storageSyncSet "highlightTextRules" [testRule],
   .closeOptionsPage,
   .navigate testHtmlPath,
   .domAppendParagraph newParagraphText,
   .waitTimeout 500,
   .screenshot verificationPath,
   .closeContext]

lemma pollLoop_all_empty (ws : Nat → List String) (start fuel : Nat)
    (h : ∀ j, j < fuel → ws (start + j) = []) :
    pollLoop ws start fuel = (none, fuel) := by
  induction fuel generalizing start with
  | zero => rfl
  | succ n ih =>
    have h0 : ws start = [] := by simpa using h 0 (Nat.succ_pos n)
    simp only [pollLoop, h0, List.head?_nil]
    rw [ih (start + 1) (fun j hj => by
      have heq : start + 1 + j = start + (j + 1) := by omega
      rw [heq]
      exact h (j + 1) (by omega))]

lemma pollLoop_found (ws : Nat → List String) (start fuel i : Nat)
    (hi : i < fuel) (hmin : ∀ j, j < i → ws (start + j) = [])
    (hne : ws (start + i) ≠ []) :
    pollLoop ws start fuel = ((ws (start + i)).head?, i) := by
  induction i generalizing start fuel with
  | zero =>
    cases fuel with
    | zero => omega
    | succ n =>
      have h0 : ws start ≠ [] := by rw [Nat.add_zero] at hne; exact hne
      obtain ⟨w, l, hwl⟩ := List.exists_cons_of_ne_nil h0
      simp [pollLoop, hwl]
  | succ m ih =>
    cases fuel with
    | zero => omega
    | succ n =>
      have h0 : ws start = [] := by simpa using hmin 0 (Nat.succ_pos m)
      simp only [pollLoop, h0, List.head?_nil]
      have hrec := ih (start + 1) n (by omega)
        (fun j hj => by
          have heq : start + 1 + j = start + (j + 1) := by omega
          rw [heq]
          exact hmin (j + 1) (by omega))
        (by
          have heq : start + 1 + m = start + (m + 1) := by omega
          rw [heq]
          exact hne)
      rw [hrec]
      have heq : start + 1 + m = start + (m + 1) := by omega
      rw [heq]

lemma printedMessages_append (a b : List PipEvent) :
    printedMessages (a ++ b) = printedMessages a ++ printedMessages b :=
  List.filterMap_append a b _

lemma printedMessages_replicate_sleep (n : Nat) :
    printedMessages (List.replicate n PipEvent.sleepHalf) = [] := by
  induction n with
  | zero => rfl
  | succ m ih =>
    rw [List.replicate_succ]
    simp [printedMessages]

/-- Claim C1: on a normal completion of the PiP Quit Verifier (a background
service worker was found), the script reads back the video's `paused`
boolean and prints the pass message exactly when it is true and the fail
message exactly when it is false. -/
theorem pip_pass_fail (env : PipEnv)
    (h : (pollLoop env.workersAt 0 10).1.isSome = true) :
    printedMessages (pipMain env) = [if env.isPaused then passMsg else failMsg] := by
  obtain ⟨w, hw⟩ := Option.isSome_iff_exists.mp h
  simp only [pipMain, hw]
  rw [printedMessages_append, printedMessages_append, printedMessages_replicate_sleep]
  simp [printedMessages]

/-- Witness for C1: with a worker present at the first poll attempt and a
paused video, the verifier prints exactly the pass message. -/
theorem pip_pass_fail_witness :
    printedMessages (pipMain ⟨fun _ => ["w"], true⟩) =
      [if (true : Bool) then passMsg else failMsg] :=
  pip_pass_fail ⟨fun _ => ["w"], true⟩ (by decide)

/-- Claim C2: when no service worker exists at any of the 10 poll attempts
(500 ms apart), the PiP Quit Verifier prints exactly the diagnostic message,
closes the context, and performs no storage write, no key press, no
screenshot and no paused check. -/
theorem pip_no_worker_early_exit (env : PipEnv)
    (h : ∀ i, i < 10 → env.workersAt i = []) :
    pipMain env =
      [.navigate videoFixturePath, .evalPipTrigger] ++
        List.replicate 10 .sleepHalf ++ [.echo noWorkerMsg, .closeContext] ∧
    printedMessages (pipMain env) = [noWorkerMsg] ∧
    (∀ w k v, PipEvent.workerEval w k v ∉ pipMain env) ∧
    (∀ c, PipEvent.keyPress c ∉ pipMain env) ∧
    (∀ p, PipEvent.screenshot p ∉ pipMain env) ∧
    PipEvent.evalPausedCheck ∉ pipMain env := by
  have hp : pollLoop env.workersAt 0 10 = (none, 10) :=
    pollLoop_all_empty env.workersAt 0 10 (fun j hj => by simpa using h j hj)
  refine ⟨?_, ?_, ?_, ?_, ?_, ?_⟩
  · simp [pipMain, hp]
  · simp only [pipMain, hp]
    rw [printedMessages_append, printedMessages_append, printedMessages_replicate_sleep]
    simp [printedMessages]
  · intro w k v
    simp [pipMain, hp, List.mem_append, List.mem_replicate]
  · intro c
    simp [pipMain, hp, List.mem_append, List.mem_replicate]
  · intro p
    simp [pipMain, hp, List.mem_append, List.mem_replicate]
  · simp [pipMain, hp, List.mem_append, List.mem_replicate]

/-- Witness for C2: with an environment that never exposes a service worker,
the verifier's trace is exactly the early-exit trace. -/
theorem pip_no_worker_early_exit_witness :
    pipMain ⟨fun _ => ([] : List String), false⟩ =
      [.navigate videoFixturePath, .evalPipTrigger] ++
        List.replicate 10 .sleepHalf ++ [.echo noWorkerMsg, .closeContext] :=
  (pip_no_worker_early_exit ⟨fun _ => [], false⟩ (fun _ _ => rfl)).1

/-- Counterexample for C3: the PiP Quit Verifier does not use the
`jules-scratch` paths the claim names — at a concrete environment its trace
contains neither a navigation to `jules-scratch/verification/video.html` nor
a screenshot at `jules-scratch/verification/screenshot.png`. -/
theorem pip_paths_not_jules :
    PipEvent.navigate "jules-scratch/verification/video.html" ∉
        pipMain ⟨fun _ => ["w"], true⟩ ∧
    PipEvent.screenshot "jules-scratch/verification/screenshot.png" ∉
        pipMain ⟨fun _ => ["w"], true⟩ := by
  decide

/-- Claim C3 (amended): the PiP Quit Verifier reads its video fixture from
`jles-scratch/verification/video.html` relative to the working directory and,
when a worker is found, writes its screenshot to
`jles-scratch/verification/screenshot.png`. -/
theorem pip_paths_jles (env : PipEnv) :
    PipEvent.navigate "jles-scratch/verification/video.html" ∈ pipMain env ∧
    ((pollLoop env.workersAt 0 10).1.isSome = true →
      PipEvent.screenshot "jles-scratch/verification/screenshot.png" ∈ pipMain env) := by
  constructor
  · simp [pipMain, videoFixturePath]
  · intro h
    obtain ⟨w, hw⟩ := Option.isSome_iff_exists.mp h
    simp [pipMain, hw, screenshotPath]

/-- Witness for C3's amended theorem: at a concrete environment with a
worker present, both path facts hold. -/
theorem pip_paths_jles_witness :
    PipEvent.navigate "jles-scratch/verification/video.html" ∈
        pipMain ⟨fun _ => ["w"], true⟩ ∧
    PipEvent.screenshot "jles-scratch/verification/screenshot.png" ∈
        pipMain ⟨fun _ => ["w"], true⟩ :=
  ⟨(pip_paths_jles ⟨fun _ => ["w"], true⟩).1,
   (pip_paths_jles ⟨fun _ => ["w"], true⟩).2 (by decide)⟩

/-- Claim C8: whenever a background service worker is found, the PiP Quit
Verifier writes `pipTabId: 1` into the extension's local storage through that
worker, and this write occurs strictly before the Control+Shift+K key
press. -/
theorem pip_storage_before_key (env : PipEnv)
    (h : (pollLoop env.workersAt 0 10).1.isSome = true) :
    ∃ w pre post, pipMain env = pre ++ post ∧
      PipEvent.workerEval w "pipTabId" 1 ∈ pre ∧
      PipEvent.keyPress "Control+Shift+K" ∈ post ∧
      PipEvent.keyPress "Control+Shift+K" ∉ pre := by
  obtain ⟨w, hw⟩ := Option.isSome_iff_exists.mp h
  refine ⟨w,
    [.navigate videoFixturePath, .evalPipTrigger] ++
      List.replicate (pollLoop env.workersAt 0 10).2 .sleepHalf ++
      [.workerEval w "pipTabId" 1],
    [.sleepTwo, .keyPress "Control+Shift+K", .sleepTwo, .screenshot screenshotPath,
     .evalPausedCheck, .echo (if env.isPaused then passMsg else failMsg),
     .closeContext],
    ?_, ?_, ?_, ?_⟩
  · simp [pipMain, hw]
  · simp
  · simp
  · simp [List.mem_append, List.mem_replicate]

/-- Witness for C8: at a concrete environment with a worker present, the
trace splits around the storage write with the key press strictly later. -/
theorem pip_storage_before_key_witness :
    ∃ w pre post, pipMain ⟨fun _ => ["w"], true⟩ = pre ++ post ∧
      PipEvent.workerEval w "pipTabId" 1 ∈ pre ∧
      PipEvent.keyPress "Control+Shift+K" ∈ post ∧
      PipEvent.keyPress "Control+Shift+K" ∉ pre :=
  pip_storage_before_key ⟨fun _ => ["w"], true⟩ (by decide)

lemma count_sleep_replicate (n : Nat) :
    (List.replicate n PipEvent.sleepHalf).count PipEvent.sleepHalf = n := by
  induction n with
  | zero => rfl
  | succ m ih => simp [List.replicate_succ, List.count_cons, ih]

/-- Claim C9: the PiP Quit Verifier takes the head of the context's
service-worker list with no filtering: if attempt `i` is the first with a
non-empty list, the poll returns that list's first element after exactly `i`
sleeps, and that element is the worker used for the `pipTabId` write. -/
theorem pip_poll_takes_first (env : PipEnv) (i : Nat) (w : String)
    (rest : List String) (hi : i < 10) (hw : env.workersAt i = w :: rest)
    (hmin : ∀ j, j < i → env.workersAt j = []) :
    pollLoop env.workersAt 0 10 = (some w, i) ∧
    PipEvent.workerEval w "pipTabId" 1 ∈ pipMain env ∧
    (pipMain env).count PipEvent.sleepHalf = i := by
  have hpoll := pollLoop_found env.workersAt 0 10 i hi
    (fun j hj => by simpa using hmin j hj) (by simp [hw])
  rw [Nat.zero_add, hw] at hpoll
  simp only [List.head?_cons] at hpoll
  refine ⟨hpoll, ?_, ?_⟩
  · simp [pipMain, hpoll]
  · simp [pipMain, hpoll, List.count_append, count_sleep_replicate, List.count_cons]

/-- Witness for C9: with workers `["u", "v"]` present from the first
attempt, the poll returns `u` with zero sleeps and `u` receives the
write. -/
theorem pip_poll_takes_first_witness :
    pollLoop (PipEnv.mk (fun _ => ["u", "v"]) true).workersAt 0 10 = (some "u", 0) ∧
    PipEvent.workerEval "u" "pipTabId" 1 ∈ pipMain ⟨fun _ => ["u", "v"], true⟩ ∧
    (pipMain ⟨fun _ => ["u", "v"], true⟩).count PipEvent.sleepHalf = 0 :=
  pip_poll_takes_first ⟨fun _ => ["u", "v"], true⟩ 0 "u" ["v"] (by decide) rfl
    (fun j hj => absurd hj (Nat.not_lt_zero j))

/-- Claim C4: writing the literal test rule as a one-element array into
synchronized storage under `highlightTextRules` makes exactly that array
retrievable from the same key afterward, over any prior storage contents;
the Highlighting Verifier performs exactly this write. -/
theorem rule_roundtrip (m : SyncStorage) (extId : String) :
    HlEvent.storageSyncSet "highlightTextRules" [testRule] ∈ hlRun extId ∧
    storageGet (storageSet m "highlightTextRules" [testRule]) "highlightTextRules"
      = some [testRule] := by
  constructor
  · simp [hlRun]
  · simp [storageGet, storageSet, List.lookup]

/-- Claim C5: for every service-worker URL of the form
`chrome-extension://<id>/background.js` (with `<id>` free of slashes),
splitting by `/` and taking index 2 yields exactly `<id>`. -/
theorem extractExtensionId_chrome (id : List Char) (h : '/' ∉ id) :
    extractExtensionId ("chrome-extension://".data ++ id ++ "/background.js".data)
      = some id := by
  have hpre : "chrome-extension://".data = "chrome-extension:".data ++ ['/', '/'] := by
    decide
  have hsuf : "/background.js".data = '/' :: "background.js".data := by decide
  have hp : '/' ∉ "chrome-extension:".data := by decide
  have hs : '/' ∉ "background.js".data := by decide
  rw [extractExtensionId, hpre, hsuf]
  have hshape : ("chrome-extension:".data ++ ['/', '/']) ++ id ++
      ('/' :: "background.js".data) =
      "chrome-extension:".data ++
        '/' :: ('/' :: (id ++ '/' :: "background.js".data)) := by
    simp [List.append_assoc]
  rw [hshape, pySplit_append_sep '/' _ _ hp]
  have hstep : pySplit '/' ('/' :: (id ++ '/' :: "background.js".data)) =
      [] :: pySplit '/' (id ++ '/' :: "background.js".data) := by
    simp [pySplit]
  rw [hstep, pySplit_append_sep '/' _ _ h, pySplit_no_sep '/' _ hs]
  rfl

/-- Witness for C5: a concrete extension id round-trips through the URL
split. -/
theorem extractExtensionId_chrome_witness :
    ('/' ∉ "abcdefgh".data) ∧
    extractExtensionId
        ("chrome-extension://".data ++ "abcdefgh".data ++ "/background.js".data)
      = some "abcdefgh".data :=
  ⟨by decide, extractExtensionId_chrome "abcdefgh".data (by decide)⟩

/-- Claim C6: in every run of the Highlighting Verifier, the trace splits so
that the `highlightTextRules` storage write lies in the earlier part and the
DOM paragraph append in the later part, and the append never occurs in the
earlier part: the storage commit strictly precedes the mutation. -/
theorem storage_write_before_mutation (extId : String) :
    ∃ pre post, hlRun extId = pre ++ post ∧
      HlEvent.storageSyncSet "highlightTextRules" [testRule] ∈ pre ∧
      HlEvent.domAppendParagraph newParagraphText ∈ post ∧
      HlEvent.domAppendParagraph newParagraphText ∉ pre := by
  refine ⟨[.navigate "https://example.com", .waitTimeout 1000, .evalSendMessage,
      .waitForServiceWorker,
      .openOptionsPage ("chrome-extension://" ++ extId ++ "/src/options/index.html"),
      .storageSyncSet "highlightTextRules" [testRule]],
    [.closeOptionsPage, .navigate testHtmlPath, .domAppendParagraph newParagraphText,
     .waitTimeout 500, .screenshot verificationPath, .closeContext],
    rfl, ?_, ?_, ?_⟩
  · simp
  · simp
  · simp

/-- Claim C10: the `[2]` indexing of the split service-worker URL is
partial: it returns no identifier exactly when the URL has fewer than two
`/` characters, and always returns one when it has at least two. -/
theorem extractExtensionId_bounds (url : List Char) :
    (List.count '/' url < 2 → extractExtensionId url = none) ∧
    (2 ≤ List.count '/' url → (extractExtensionId url).isSome = true) := by
  constructor
  · intro h
    rw [extractExtensionId]
    apply List.get?_eq_none.mpr
    rw [pySplit_length]
    omega
  · intro h
    have hlt : 2 < (pySplit '/' url).length := by
      rw [pySplit_length]
      omega
    rw [extractExtensionId, List.get?_eq_get hlt]
    rfl

/-- Witness for C10: a URL with no slash yields no identifier; a well-formed
extension URL yields one. -/
theorem extractExtensionId_bounds_witness :
    (List.count '/' "abc".data < 2 ∧ extractExtensionId "abc".data = none) ∧
    (2 ≤ List.count '/' "chrome-extension://x/y".data ∧
      (extractExtensionId "chrome-extension://x/y".data).isSome = true) :=
  ⟨⟨by decide, (extractExtensionId_bounds "abc".data).1 (by decide)⟩,
   ⟨by decide, (extractExtensionId_bounds "chrome-extension://x/y".data).2 (by decide)⟩⟩

/-! ### The in-page PiP trigger of `test.py` -/

/-- A Picture-in-Picture request made by the in-page trigger script: either
immediately, or from the one-shot `loadedmetadata` listener when the event at
index `i` of the subsequent event stream fires. -/
inductive PipRequest where
  | immediate
  | atEvent (i : Nat)
deriving DecidableEq, Repr

/-- The index of the first `loadedmetadata` event in the stream — the moment
a `{once: true}` listener for it fires, if ever. -/
def firstListenerFire : List String → Option Nat
  | [] => none
  | e :: es =>
    if e = "loadedmetadata" then some 0
    else (firstListenerFire es).map (· + 1)

/-- The PiP requests issued by the in-page trigger of `test.py`: with
`readyState >= 1` request immediately; otherwise register a one-shot
`loadedmetadata` listener and request when (and only if) it fires. -/
def pipTriggerRequests (readyState : Nat) (events : List String) : List PipRequest :=
  if 1 ≤ readyState then [.immediate]
  else
    match firstListenerFire events with
    | some i => [.atEvent i]
    | none => []

lemma firstListenerFire_spec (es : List String) (i : Nat)
    (h : firstListenerFire es = some i) : es.get? i = some "loadedmetadata" := by
  induction es generalizing i with
  | nil => simp [firstListenerFire] at h
  | cons e es ih =>
    by_cases he : e = "loadedmetadata"
    · simp only [firstListenerFire, if_pos he, Option.some.injEq] at h
      subst h
      simp [he]
    · simp only [firstListenerFire, if_neg he, Option.map_eq_some'] at h
      obtain ⟨j, hj, hji⟩ := h
      subst hji
      simpa using ih j hj

/-- Claim C7: the in-page PiP trigger requests PiP immediately when
`readyState >= 1`, otherwise exactly once when the first `loadedmetadata`
event fires (never if it never fires); at most one request is ever issued,
and no request happens before metadata is available. -/
theorem pip_trigger_guard (readyState : Nat) (events : List String) :
    (1 ≤ readyState → pipTriggerRequests readyState events = [.immediate]) ∧
    (readyState < 1 → ∀ i, firstListenerFire events = some i →
        pipTriggerRequests readyState events = [.atEvent i]) ∧
    (readyState < 1 → firstListenerFire events = none →
        pipTriggerRequests readyState events = []) ∧
    (pipTriggerRequests readyState events).length ≤ 1 ∧
    (PipRequest.immediate ∈ pipTriggerRequests readyState events → 1 ≤ readyState) ∧
    (∀ i, PipRequest.atEvent i ∈ pipTriggerRequests readyState events →
        events.get? i = some "loadedmetadata") := by
  refine ⟨?_, ?_, ?_, ?_, ?_, ?_⟩
  · intro h
    simp [pipTriggerRequests, h]
  · intro h i hi
    have h0 : ¬ 1 ≤ readyState := by omega
    simp [pipTriggerRequests, h0, hi]
  · intro h hn
    have h0 : ¬ 1 ≤ readyState := by omega
    simp [pipTriggerRequests, h0, hn]
  · by_cases h0 : 1 ≤ readyState
    · simp [pipTriggerRequests, h0]
    · simp only [pipTriggerRequests, if_neg h0]
      rcases hfl : firstListenerFire events with _ | j <;> simp
  · by_cases h0 : 1 ≤ readyState
    · intro _
      exact h0
    · simp only [pipTriggerRequests, if_neg h0]
      rcases hfl : firstListenerFire events with _ | j <;> simp
  · intro i
    by_cases h0 : 1 ≤ readyState
    · simp [pipTriggerRequests, h0]
    · simp only [pipTriggerRequests, if_neg h0]
      rcases hfl : firstListenerFire events with _ | j
      · simp
      · simp only [List.mem_singleton, PipRequest.atEvent.injEq]
        intro hij
        subst hij
        exact firstListenerFire_spec events i hfl

/-- Witness for C7: with metadata not yet available and a `loadedmetadata`
event at index 1, PiP is requested exactly once, at that event. -/
theorem pip_trigger_guard_witness :
    (0 < 1) ∧ firstListenerFire ["x", "loadedmetadata"] = some 1 ∧
    pipTriggerRequests 0 ["x", "loadedmetadata"] = [PipRequest.atEvent 1] :=
  ⟨by decide, by decide,
    (pip_trigger_guard 0 ["x", "loadedmetadata"]).2.1 (by decide) 1 (by decide)⟩

end Nenya
